import Mathlib

/-!
Verification development for the ADMINISTRADOR_TAREAS monitoring core.

The Python modules `ai_assistant.py` and `system_monitor.py` are shallowly
embedded below.  Python floats are modelled as rationals (`ℚ`), Python dicts
keyed by strings as association lists whose update preserves insertion order
(exactly the behaviour of CPython dicts), and the psutil process API as an
explicit environment record describing the outcome of each OS call.  Python's
`list.sort` is a stable sort; it is modelled by `List.insertionSort`, which is
extensionally equal to any stable sort for the total preorders used here.
-/

/-! ## Embedding of `ai_assistant.py` -/

/-- `ProcessAnomaly` dataclass (`ai_assistant.py` lines 13-23).  The
`recommendation` field is an f-string built from the numeric fields and the
name; its formatted text is elided from the model, every other field is kept. -/
structure ProcessAnomaly where
  process_name : String
  pid : Int
  anomaly_type : String
  severity : String
  current_value : ℚ
  baseline_value : ℚ
  icon : String
deriving DecidableEq

/-- `SystemInsight` dataclass (`ai_assistant.py` lines 26-34).  The
`description` field is an f-string built from the numeric arguments; its
formatted text is elided.  `action_label`/`action_data` are never set by
`generate_insights` (they keep their `None` defaults) and are elided too. -/
structure SystemInsight where
  title : String
  severity : String
  icon : String
deriving DecidableEq

/-- One value of the per-process history dict
`{'cpu': [], 'memory': [], 'timestamps': []}` (`ai_assistant.py` line 43). -/
structure ProcHistory where
  cpu : List ℚ
  memory : List ℚ
  timestamps : List ℚ
deriving DecidableEq

/-- One value of `self.baselines[name]` (`ai_assistant.py` lines 123-128).
Python stores `statistics.stdev` (a square root, hence irrational); since no
code in the repository ever reads the stdev fields, the model stores the exact
sample variance (the square of the stored value) to stay inside `ℚ`. -/
structure Baseline where
  cpu : ℚ
  memory : ℚ
  cpu_stdev_sq : ℚ
  memory_stdev_sq : ℚ
deriving DecidableEq

/-- One element of the `processes` batch handed to `update_process_data` /
`detect_anomalies`: a dict with keys `name`, `pid`, `cpu`, `memory`. -/
structure ProcSample where
  name : String
  pid : Int
  cpu : ℚ
  memory : ℚ
deriving DecidableEq

/-- The mutable state of `AIAssistant` (`ai_assistant.py` lines 40-64): the
per-name history dict, the baselines dict, the current anomaly list and the
insights cooldown clock.  The `config` dict is constant in the source and is
modelled by the constants below. -/
structure AIState where
  process_history : List (String × ProcHistory)
  baselines : List (String × Baseline)
  current_anomalies : List ProcessAnomaly
  last_insights_time : ℚ
deriving DecidableEq

/-- `config['history_size']` (`ai_assistant.py` line 54). -/
def history_size : Nat := 20

/-- `config['cpu_high_threshold']` (line 55). -/
def cpu_high_threshold : ℚ := 50

/-- `config['memory_high_threshold']` (line 56). -/
def memory_high_threshold : ℚ := 500

/-- `config['anomaly_multiplier']` (line 57). -/
def anomaly_multiplier : ℚ := 5 / 2

/-- `config['memory_leak_slope']` (line 58). -/
def memory_leak_slope : ℚ := 10

/-- `config['spike_multiplier']` (line 59). -/
def spike_multiplier : ℚ := 3

/-- `self.insights_cooldown = 30` (line 64). -/
def insights_cooldown : ℚ := 30

/-- Dict lookup on an association list (first binding wins, as in a dict,
where keys are unique). -/
def alookup {β : Type} (l : List (String × β)) (n : String) : Option β :=
  match l with
  | [] => none
  | e :: t => if e.1 = n then some e.2 else alookup t n

/-- Dict assignment `d[n] = v`: replace the binding in place if the key is
present, otherwise append it (CPython dicts preserve insertion order). -/
def aset {β : Type} (l : List (String × β)) (n : String) (v : β) : List (String × β) :=
  match l with
  | [] => [(n, v)]
  | e :: t => if e.1 = n then (n, v) :: t else e :: aset t n v

/-- The `defaultdict` default value (`ai_assistant.py` line 43). -/
def emptyHist : ProcHistory := ⟨[], [], []⟩

/-- Python slice `l[-k:]`: the last `k` elements. -/
def takeLast {α : Type} (k : Nat) (l : List α) : List α := l.drop (l.length - k)

/-- Body of the per-process part of `update_process_data`
(`ai_assistant.py` lines 80-91): append cpu/memory/timestamp, then if the
cpu list exceeds `history_size`, truncate all three lists to their last
`history_size` elements. -/
def histPush (now c m : ℚ) (ph : ProcHistory) : ProcHistory :=
  let cpu := ph.cpu ++ [c]
  let mem := ph.memory ++ [m]
  let ts := ph.timestamps ++ [now]
  if history_size < cpu.length then
    ⟨takeLast history_size cpu, takeLast history_size mem, takeLast history_size ts⟩
  else ⟨cpu, mem, ts⟩

/-- The `for proc in processes` loop of `update_process_data` (lines 75-91):
`self.process_history[name]` auto-creates an empty entry, which is then
appended to and possibly truncated. -/
def ingestBatch (now : ℚ) (procs : List ProcSample) (h : List (String × ProcHistory)) :
    List (String × ProcHistory) :=
  procs.foldl
    (fun h p => aset h p.name (histPush now p.cpu p.memory ((alookup h p.name).getD emptyHist)))
    h

/-- Removal condition of `_cleanup_old_processes` (lines 101-108) for one
history entry: the name is absent from the current batch, its timestamp list
is non-empty, and its last timestamp is more than 120 seconds old. -/
def staleEntry (now : ℚ) (names : List String) (e : String × ProcHistory) : Bool :=
  !(names.contains e.1) && !(e.2.timestamps.isEmpty)
    && decide ((120 : ℚ) < now - e.2.timestamps.getLastD 0)

/-- `_cleanup_old_processes` (`ai_assistant.py` lines 96-111): delete every
stale entry from the history dict and the same names from the baselines dict.
The source re-reads `time.time()` inside the loop; the model passes the single
clock value `now` for the whole call. -/
def cleanup_old_processes (now : ℚ) (names : List String)
    (h : List (String × ProcHistory)) (b : List (String × Baseline)) :
    List (String × ProcHistory) × List (String × Baseline) :=
  let removed := (h.filter (staleEntry now names)).map Prod.fst
  (h.filter (fun e => !(removed.contains e.1)),
   b.filter (fun e => !(removed.contains e.1)))

/-- `AIAssistant.update_process_data` (`ai_assistant.py` lines 66-94):
ingest the batch, then run the cleanup pass against the batch's name set. -/
def update_process_data (now : ℚ) (procs : List ProcSample) (s : AIState) : AIState :=
  let h := ingestBatch now procs s.process_history
  let hb := cleanup_old_processes now (procs.map ProcSample.name) h s.baselines
  { s with process_history := hb.1, baselines := hb.2 }

/-- `statistics.mean`. -/
def listMean (l : List ℚ) : ℚ := l.sum / (l.length : ℚ)

/-- Square of `statistics.stdev` (sample variance); the source stores
`stdev` when the list has more than one element, else `0` (lines 126-127). -/
def listVarSample (l : List ℚ) : ℚ :=
  if 1 < l.length then
    ((l.map (fun x => (x - listMean l) * (x - listMean l))).sum) / ((l.length : ℚ) - 1)
  else 0

/-- `AIAssistant.calculate_baselines` (`ai_assistant.py` lines 113-130): for
each history entry with at least 3 cpu samples, overwrite that name's baseline
with the means (and spreads) of its cpu and memory lists.  The
`statistics.StatisticsError` handler is dead code under the length guard. -/
def calculate_baselines (h : List (String × ProcHistory)) (b : List (String × Baseline)) :
    List (String × Baseline) :=
  h.foldl
    (fun acc e =>
      if e.2.cpu.length < 3 then acc
      else aset acc e.1
        ⟨listMean e.2.cpu, listMean e.2.memory, listVarSample e.2.cpu, listVarSample e.2.memory⟩)
    b

/-- Number of adjacent strictly increasing pairs: the `increases` count of
`_detect_memory_leak` (`ai_assistant.py` lines 230-231). -/
def countIncreases (l : List ℚ) : Nat :=
  (l.zip l.tail).countP (fun pr => decide (pr.1 < pr.2))

/-- `AIAssistant._detect_memory_leak` (`ai_assistant.py` lines 221-239) on a
memory sample list: fewer than 5 samples is no leak; otherwise take the last
5 samples, and if at least 4 adjacent pairs increase, report a leak exactly
when `(last - first) / 5` exceeds `memory_leak_slope`. -/
def detect_memory_leak (mem : List ℚ) : Bool :=
  if mem.length < 5 then false
  else
    let last5 := takeLast 5 mem
    if 4 ≤ countIncreases last5 then
      decide (memory_leak_slope < (last5.getLastD 0 - last5.headD 0) / (last5.length : ℚ))
    else false

/-- `severity_order` dict of `detect_anomalies` (line 215), with the `.get`
default 999. -/
def severityRank (s : String) : Nat :=
  match s with
  | "critical" => 0
  | "high" => 1
  | "medium" => 2
  | "low" => 3
  | _ => 999

/-- The four per-process rule bodies of `detect_anomalies`
(`ai_assistant.py` lines 154-212), evaluated for a process that has a
baseline `bl` and (auto-created if missing) history entry `ph`. -/
def checkProcess (bl : Baseline) (ph : ProcHistory) (p : ProcSample) : List ProcessAnomaly :=
  (if cpu_high_threshold < p.cpu ∧ bl.cpu * anomaly_multiplier < p.cpu then
    [⟨p.name, p.pid, "high_cpu", if (80 : ℚ) < p.cpu then "critical" else "high",
      p.cpu, bl.cpu, "🔥"⟩]
  else [])
  ++ (if memory_high_threshold < p.memory ∧ bl.memory * anomaly_multiplier < p.memory then
    [⟨p.name, p.pid, "high_memory", if (2000 : ℚ) < p.memory then "critical" else "high",
      p.memory, bl.memory, "💾"⟩]
  else [])
  ++ (if 5 ≤ ph.memory.length ∧ detect_memory_leak ph.memory = true then
    [⟨p.name, p.pid, "memory_leak", "high", p.memory, bl.memory, "⚠️"⟩]
  else [])
  ++ (if 2 ≤ ph.cpu.length then
        (let prev := ph.cpu.getD (ph.cpu.length - 2) 0
         if prev * spike_multiplier < p.cpu ∧ (30 : ℚ) < p.cpu then
           [⟨p.name, p.pid, "sudden_spike", "medium", p.cpu, prev, "📈"⟩]
         else [])
      else [])

/-- Indexing the auto-creating `defaultdict`: `self.process_history[name]`
returns the existing entry, or appends a fresh empty entry and returns it. -/
def ensureHist (h : List (String × ProcHistory)) (n : String) :
    List (String × ProcHistory) × ProcHistory :=
  match alookup h n with
  | some ph => (h, ph)
  | none => (h ++ [(n, emptyHist)], emptyHist)

/-- Python's `list.sort` with a key-based boolean `le`: a stable sort,
modelled by insertion sort (extensionally equal for total preorders). -/
def stableSortBy {α : Type} (le : α → α → Bool) (l : List α) : List α :=
  List.insertionSort (fun a b => le a b = true) l

/-- One iteration of the `for proc in current_processes` loop of
`detect_anomalies` (`ai_assistant.py` lines 142-212): skip the process when
it has no baseline (line 149), otherwise index the auto-creating history
dict and collect the anomalies of the four rules. -/
def detectStep (b : List (String × Baseline))
    (acc : List (String × ProcHistory) × List ProcessAnomaly) (p : ProcSample) :
    List (String × ProcHistory) × List ProcessAnomaly :=
  match alookup b p.name with
  | none => acc
  | some bl =>
    let hp := ensureHist acc.1 p.name
    (hp.1, acc.2 ++ checkProcess bl hp.2 p)

/-- `AIAssistant.detect_anomalies` (`ai_assistant.py` lines 132-219): first
recompute baselines, then for each process of the batch that has a baseline
evaluate the four rules — indexing `process_history` through the auto-creating
default dict — and finally stable-sort the anomalies by severity rank,
store and return them. -/
def detect_anomalies (procs : List ProcSample) (s : AIState) :
    List ProcessAnomaly × AIState :=
  let b := calculate_baselines s.process_history s.baselines
  let r := procs.foldl (detectStep b) (s.process_history, [])
  let sorted := stableSortBy
    (fun x y => decide (severityRank x.severity ≤ severityRank y.severity)) r.2
  (sorted,
   { s with process_history := r.1, baselines := b, current_anomalies := sorted })

/-- `AIAssistant._predict_resource_trend` (`ai_assistant.py` lines 310-324). -/
def predict_resource_trend (cpu ram : ℚ) : Option SystemInsight :=
  if (70 : ℚ) < cpu ∧ (70 : ℚ) < ram then
    some ⟨"⚠️ Predicción: Saturación inminente", "warning", "🔮"⟩
  else none

/-- `AIAssistant.generate_insights` (`ai_assistant.py` lines 241-308): under
cooldown, return the empty list leaving the state untouched; otherwise
evaluate the CPU tier, the RAM tier, the saturation prediction and the
process-count advisory, update the cooldown clock and return the insights. -/
def generate_insights (now cpu ram : ℚ) (totalProcesses : Nat) (s : AIState) :
    List SystemInsight × AIState :=
  if now - s.last_insights_time < insights_cooldown then ([], s)
  else
    let l1 : List SystemInsight :=
      if (80 : ℚ) < cpu then [⟨"CPU crítica", "critical", "🚨"⟩]
      else if (60 : ℚ) < cpu then [⟨"CPU elevada", "warning", "⚡"⟩]
      else []
    let l2 : List SystemInsight :=
      if (85 : ℚ) < ram then [⟨"RAM crítica", "critical", "🚨"⟩]
      else if (70 : ℚ) < ram then [⟨"RAM elevada", "warning", "💡"⟩]
      else []
    let l3 : List SystemInsight :=
      match predict_resource_trend cpu ram with
      | some i => [i]
      | none => []
    let l4 : List SystemInsight :=
      if 200 < totalProcesses then [⟨"Muchos procesos activos", "info", "📊"⟩]
      else []
    (l1 ++ l2 ++ l3 ++ l4, { s with last_insights_time := now })

/-- The state built by `AIAssistant.__init__` (`ai_assistant.py` lines 40-64):
empty dicts, no anomalies, `last_insights_time = 0`. -/
def initialAIState : AIState := ⟨[], [], [], 0⟩

/-! ## Embedding of `system_monitor.py` -/

/-- The three branches of `platform.system()` used by the source
(`system_monitor.py` lines 42-44): Windows, Linux, and everything else
(treated as macOS by `_get_critical_processes`). -/
inductive OSType where
  | windows
  | linux
  | other
deriving DecidableEq

/-- ASCII lowercasing of one character; Python's `str.lower()` restricted to
the ASCII range, which covers every name in the critical-process sets. -/
def lowerChar (c : Char) : Char :=
  if 65 ≤ c.toNat ∧ c.toNat ≤ 90 then Char.ofNat (c.toNat + 32) else c

/-- Python `s.lower()` (ASCII model). -/
def lowerString (s : String) : String := ⟨s.data.map lowerChar⟩

/-- `SystemMonitor._get_critical_processes` (`system_monitor.py` lines
53-71): the per-OS critical-process set. -/
def get_critical_processes (os : OSType) : List String :=
  match os with
  | .windows =>
    ["system", "csrss.exe", "wininit.exe", "services.exe",
     "lsass.exe", "smss.exe", "winlogon.exe", "dwm.exe",
     "svchost.exe", "systemd", "init"]
  | .linux =>
    ["systemd", "init", "kthreadd", "systemd-journald",
     "systemd-udevd", "dbus-daemon", "NetworkManager",
     "accounts-daemon", "gdm", "Xorg", "snapd"]
  | .other =>
    ["kernel_task", "launchd", "WindowServer", "loginwindow",
     "systemstats", "mds", "mds_stores"]

/-- `SystemMonitor.is_critical_process` (lines 73-75):
`name.lower() in self._critical_processes`. -/
def is_critical_process (os : OSType) (name : String) : Bool :=
  (get_critical_processes os).contains (lowerString name)

/-- `ProcessInfo` dataclass (`system_monitor.py` lines 14-22). -/
structure ProcessInfo where
  pid : Int
  name : String
  cpu : ℚ
  memory : Int
  status : String
  username : String := ""
deriving DecidableEq

/-- Does `pat` occur at the start of `s`? -/
def charsStartWith : List Char → List Char → Bool
  | [], _ => true
  | _ :: _, [] => false
  | a :: as, b :: bs => a == b && charsStartWith as bs

/-- Python's substring test `pat in s` on character lists. -/
def charsContain (pat : List Char) : List Char → Bool
  | [] => pat.isEmpty
  | c :: t => charsStartWith pat (c :: t) || charsContain pat t

/-- The filter step of `get_processes` (lines 161-163): an empty
`filter_text` passes everything, otherwise the lower-cased filter text must
occur in the lower-cased process name. -/
def matchesFilter (filterText : String) (p : ProcessInfo) : Bool :=
  if filterText = "" then true
  else charsContain (lowerString filterText).data (lowerString p.name).data

/-- The case-insensitive sort key for `sort_by='name'` (line 169). -/
def nameKey (p : ProcessInfo) : List Char := (lowerString p.name).data

/-- The `sort_key` dispatch of `get_processes` (lines 166-171): the four
recognized keys, any other string falling back to the cpu key; `le` form of
Python's key-based ascending comparison. -/
def sortLe (sortBy : String) (p q : ProcessInfo) : Bool :=
  if sortBy = "cpu" then decide (p.cpu ≤ q.cpu)
  else if sortBy = "memory" then decide (p.memory ≤ q.memory)
  else if sortBy = "name" then decide (nameKey p ≤ nameKey q)
  else if sortBy = "pid" then decide (p.pid ≤ q.pid)
  else decide (p.cpu ≤ q.cpu)

/-- `list.sort(key=sort_key, reverse=reverse)` as a boolean relation: with
`reverse=True` Python sorts descending while keeping equal keys in original
order, which is stable sorting by the flipped relation. -/
def effectiveLe (sortBy : String) (rev : Bool) (p q : ProcessInfo) : Bool :=
  if rev then sortLe sortBy q p else sortLe sortBy p q

/-- `SystemMonitor.get_processes` (`system_monitor.py` lines 151-175):
snapshot the cache values, filter, stable-sort, truncate to `limit`. -/
def get_processes (cache : List ProcessInfo) (sortBy : String) (rev : Bool)
    (limit : Nat) (filterText : String) : List ProcessInfo :=
  let ps := if filterText = "" then cache else cache.filter (matchesFilter filterText)
  (stableSortBy (effectiveLe sortBy rev) ps).take limit

/-- The psutil exceptions distinguished by `kill_process`
(`system_monitor.py` lines 210-225). -/
inductive PsErr where
  | noSuchProcess
  | accessDenied
  | timeoutExpired
  | other (msg : String)
deriving DecidableEq

/-- The OS-level calls `kill_process` can issue on the target process. -/
inductive OSCall where
  | terminate
  | wait
  | kill
deriving DecidableEq

/-- Abstract psutil environment for one `kill_process(pid, force)` call: the
outcome of `psutil.Process(pid)`/`proc.name()`, and of each OS signal call,
were it to be issued.  This is how the model expresses "regardless of
OS-level permission state": the outcome fields may hold any error. -/
structure ProcEnv where
  procName : Except PsErr String
  terminateOutcome : Except PsErr Unit
  waitOutcome : Except PsErr Unit
  killOutcome : Except PsErr Unit

/-- The result dict of `kill_process`: `{'success': True, 'message': ...}`
or `{'success': False, 'error': ...}`. -/
inductive KillResult where
  | ok (message : String)
  | err (error : String)
deriving DecidableEq

/-- The `except` clauses of `kill_process` (lines 210-225), shared by every
point of the `try` body an exception can escape from: `NoSuchProcess`,
`AccessDenied` and generic exceptions map to structured errors;
`TimeoutExpired` escalates to `proc.kill()`, reporting success on `force
killed` and a structured error if even that fails (the bare `except`). -/
def handleKillErr (env : ProcEnv) (pid : Int) (e : PsErr) : KillResult × List OSCall :=
  match e with
  | .noSuchProcess => (.err ("Process " ++ toString pid ++ " does not exist"), [])
  | .accessDenied =>
    (.err ("Access denied for PID " ++ toString pid ++ ". Try running as admin/root"), [])
  | .timeoutExpired =>
    match env.killOutcome with
    | .ok _ => (.ok ("Process " ++ toString pid ++ " force killed"), [.kill])
    | .error _ => (.err "Failed to kill process", [.kill])
  | .other msg => (.err msg, [])

/-- `SystemMonitor.kill_process` (`system_monitor.py` lines 185-225),
returning the result dict together with the trace of OS signal calls issued.
The critical-process refusal happens before any signal call; `force=True`
kills directly; otherwise terminate-then-wait(3s), with the timeout
escalation handled by `handleKillErr`.  Every path returns a structured
result: no exception escapes to the caller. -/
def kill_process (os : OSType) (env : ProcEnv) (pid : Int) (force : Bool) :
    KillResult × List OSCall :=
  match env.procName with
  | .error e => handleKillErr env pid e
  | .ok name =>
    if is_critical_process os name then
      (.err ("Cannot kill critical system process: " ++ name), [])
    else if force then
      match env.killOutcome with
      | .ok _ =>
        (.ok ("Process " ++ name ++ " (PID: " ++ toString pid ++ ") terminated"), [.kill])
      | .error e =>
        let r := handleKillErr env pid e
        (r.1, .kill :: r.2)
    else
      match env.terminateOutcome with
      | .error e =>
        let r := handleKillErr env pid e
        (r.1, .terminate :: r.2)
      | .ok _ =>
        match env.waitOutcome with
        | .ok _ =>
          (.ok ("Process " ++ name ++ " (PID: " ++ toString pid ++ ") terminated"),
           [.terminate, .wait])
        | .error e =>
          let r := handleKillErr env pid e
          (r.1, .terminate :: .wait :: r.2)

/-! ## Static lock-discipline model of the shared process cache

Each access of `self._process_cache` in the source is recorded together with
whether it occurs inside a `with self._lock:` block. -/

/-- One access to the shared `_process_cache`, tagged with whether the single
`self._lock` is held at that program point. -/
inductive CacheAccess where
  | read (lockHeld : Bool)
  | write (lockHeld : Bool)
deriving DecidableEq

/-- `get_current_stats` (`system_monitor.py` lines 138-149) reads
`self._process_cache` (lines 147-148) inside `with self._lock:` (line 140). -/
def get_current_stats_cacheAccesses : List CacheAccess := [.read true]

/-- `get_processes` (lines 151-175) reads `self._process_cache` (line 158)
inside `with self._lock:` (line 157). -/
def get_processes_cacheAccesses : List CacheAccess := [.read true]

/-- `_collect_processes_optimized` (lines 100-134), the per-cycle wholesale
replacement run by `_monitor_loop` (line 241): the assignment
`self._process_cache = new_processes` (line 132) is not inside any
`with self._lock:` block. -/
def collect_processes_cacheAccesses : List CacheAccess := [.write false]

/-- Whether an access holds the lock. -/
def lockedAccess : CacheAccess → Bool
  | .read b => b
  | .write b => b

/-- The spec's claimed discipline: every read and write of the shared cache
— including the monitor loop's replacement — holds the lock. -/
def allCacheAccessesUnderLock : Bool :=
  (get_current_stats_cacheAccesses ++ get_processes_cacheAccesses
    ++ collect_processes_cacheAccesses).all lockedAccess

/-! ## Invariant predicates -/

/-- Every tracked history entry keeps all three sample lists within
`history_size`. -/
def historyBounded (h : List (String × ProcHistory)) : Prop :=
  ∀ e ∈ h, e.2.cpu.length ≤ history_size ∧ e.2.memory.length ≤ history_size
    ∧ e.2.timestamps.length ≤ history_size

/-- Every tracked history entry keeps its three parallel sample lists at
equal lengths. -/
def historySynced (h : List (String × ProcHistory)) : Prop :=
  ∀ e ∈ h, e.2.cpu.length = e.2.memory.length
    ∧ e.2.memory.length = e.2.timestamps.length

/-- Every name with a baseline is also tracked in the history dict (true of
every reachable `AIAssistant` state: baselines are only created from history
entries and deleted together with them). -/
def baselinesCovered (s : AIState) : Prop :=
  ∀ e ∈ s.baselines, (alookup s.process_history e.1).isSome = true

/-- One full-history update step, for iterating `update_process_data` over a
sequence of timestamped batches. -/
def runUpdates (updates : List (ℚ × List ProcSample)) (s : AIState) : AIState :=
  updates.foldl (fun s u => update_process_data u.1 u.2 s) s

/-! ## Concrete example states -/

/-- Five-sample history whose memory samples grow by 10 MB per sample. -/
def leakHistFlat : ProcHistory := ⟨[1, 1, 1, 1, 1], [100, 110, 120, 130, 140], [0, 1, 2, 3, 4]⟩

/-- Five-sample history whose memory samples grow by 15 MB per sample. -/
def leakHistSteep : ProcHistory := ⟨[1, 1, 1, 1, 1], [100, 115, 130, 145, 160], [0, 1, 2, 3, 4]⟩

/-- Assistant state tracking one process "app" with the flat-growth history. -/
def leakStateFlat : AIState := ⟨[("app", leakHistFlat)], [], [], 0⟩

/-- Assistant state tracking one process "app" with the steep-growth history. -/
def leakStateSteep : AIState := ⟨[("app", leakHistSteep)], [], [], 0⟩

/-- Current sample of "app" matching the flat history's last memory value. -/
def leakProcFlat : ProcSample := ⟨"app", 7, 1, 140⟩

/-- Current sample of "app" matching the steep history's last memory value. -/
def leakProcSteep : ProcSample := ⟨"app", 7, 1, 160⟩

/-- Assistant state tracking one process "old", last seen at time 0, with a
baseline recorded for it. -/
def staleState : AIState := ⟨[("old", ⟨[1], [1], [0]⟩)], [("old", ⟨1, 1, 0, 0⟩)], [], 0⟩

/-- A fresh batch sample whose name differs from "old". -/
def freshSample : ProcSample := ⟨"fresh", 2, 1, 1⟩

/-- Assistant state whose baseline dict is covered by its history dict. -/
def coveredState : AIState := ⟨[("app", leakHistFlat)], [("app", ⟨1, 120, 0, 0⟩)], [], 0⟩

/-- A two-entry process cache for exercising `get_processes`. -/
def cacheEx : List ProcessInfo :=
  [⟨10, "Beta", 5, 100, "running", ""⟩, ⟨3, "alpha", 7, 50, "running", ""⟩]

/-! ## Theorems -/

/-- C1: for every pid whose process name, lower-cased, is in the
platform-specific critical-process set, `kill_process` returns a failure with
the critical-process error and issues no terminate/kill OS call, for both
values of `force` and for every outcome the OS would give the signal calls
(in particular regardless of any permission state). -/
theorem kill_process_critical_refused
    (os : OSType) (env : ProcEnv) (pid : Int) (force : Bool) (name : String)
    (hname : env.procName = .ok name)
    (hcrit : is_critical_process os name = true) :
    kill_process os env pid force =
      (.err ("Cannot kill critical system process: " ++ name), []) := by
  unfold kill_process
  rw [hname]
  simp [hcrit]

/-- Witness for C1: killing PID 4 named "System" on Windows is refused with
no OS call, even though every signal call would be denied. -/
theorem kill_process_critical_refused_witness :
    kill_process .windows
      ⟨.ok "System", .error .accessDenied, .error .accessDenied, .error .accessDenied⟩
      4 true
      = (.err ("Cannot kill critical system process: " ++ "System"), []) :=
  kill_process_critical_refused .windows
    ⟨.ok "System", .error .accessDenied, .error .accessDenied, .error .accessDenied⟩
    4 true "System" rfl (by decide)

/-- C7: on a non-critical process, `kill_process(pid, force=False)` (a) on a
clean terminate+wait reports success having issued terminate then wait; (b) on
a wait timeout escalates to kill and reports success with the "force killed"
message; (c) classifies NoSuchProcess, AccessDenied and any other OS failure
as three structured error results (the fixed messages being distinct), never
raising to the caller — the model returns a `KillResult` on every path. -/
theorem kill_process_noncritical_paths
    (os : OSType) (env : ProcEnv) (pid : Int) (name : String)
    (hname : env.procName = .ok name)
    (hcrit : is_critical_process os name = false) :
    (env.terminateOutcome = .ok () → env.waitOutcome = .ok () →
      kill_process os env pid false =
        (.ok ("Process " ++ name ++ " (PID: " ++ toString pid ++ ") terminated"),
         [.terminate, .wait]))
    ∧ (env.terminateOutcome = .ok () → env.waitOutcome = .error .timeoutExpired →
        env.killOutcome = .ok () →
        kill_process os env pid false =
          (.ok ("Process " ++ toString pid ++ " force killed"),
           [.terminate, .wait, .kill]))
    ∧ (env.terminateOutcome = .error .noSuchProcess →
        kill_process os env pid false =
          (.err ("Process " ++ toString pid ++ " does not exist"), [.terminate]))
    ∧ (env.terminateOutcome = .error .accessDenied →
        kill_process os env pid false =
          (.err ("Access denied for PID " ++ toString pid ++
            ". Try running as admin/root"), [.terminate]))
    ∧ (∀ msg, env.terminateOutcome = .error (.other msg) →
        kill_process os env pid false = (.err msg, [.terminate]))
    ∧ ("Process " ++ toString pid ++ " does not exist") ≠
        ("Access denied for PID " ++ toString pid ++ ". Try running as admin/root") := by
  refine ⟨?_, ?_, ?_, ?_, ?_, ?_⟩
  · intro ht hw
    unfold kill_process
    rw [hname]
    simp [hcrit, ht, hw]
  · intro ht hw hk
    unfold kill_process
    rw [hname]
    simp [hcrit, ht, hw, handleKillErr, hk]
  · intro ht
    unfold kill_process
    rw [hname]
    simp [hcrit, ht, handleKillErr]
  · intro ht
    unfold kill_process
    rw [hname]
    simp [hcrit, ht, handleKillErr]
  · intro msg ht
    unfold kill_process
    rw [hname]
    simp [hcrit, ht, handleKillErr]
  · intro h
    have hlen := congrArg String.length h
    have h1 : "Process ".length = 8 := by decide
    have h2 : " does not exist".length = 15 := by decide
    have h3 : "Access denied for PID ".length = 22 := by decide
    have h4 : ". Try running as admin/root".length = 27 := by decide
    simp [String.length_append, h1, h2, h3, h4] at hlen
    omega

/-- Witness for C7: a non-critical process "myapp" whose graceful wait times
out is force-killed with a success result. -/
theorem kill_process_noncritical_paths_witness :
    kill_process .linux
      ⟨.ok "myapp", .ok (), .error .timeoutExpired, .ok ()⟩ 1234 false
      = (.ok ("Process " ++ toString (1234 : Int) ++ " force killed"),
         [.terminate, .wait, .kill]) :=
  (kill_process_noncritical_paths .linux
      ⟨.ok "myapp", .ok (), .error .timeoutExpired, .ok ()⟩ 1234 "myapp"
      rfl (by decide)).2.1 rfl rfl rfl

/-- C8 counterexample: the claim "every read and write of the shared process
cache is executed while holding the lock" is false of the source — the
per-cycle replacement `self._process_cache = new_processes`
(`system_monitor.py` line 132) is performed outside any `with self._lock:`
block. -/
theorem cache_lock_discipline_fails : allCacheAccessesUnderLock = false := by decide

/-- C8 (amended): both cache readers (`get_current_stats`, `get_processes`)
access the shared cache while holding the lock, but the monitor loop's
wholesale cache replacement in `_collect_processes_optimized` writes it
without holding the lock. -/
theorem cache_lock_discipline_actual :
    get_current_stats_cacheAccesses.all lockedAccess = true
    ∧ get_processes_cacheAccesses.all lockedAccess = true
    ∧ collect_processes_cacheAccesses.all lockedAccess = false := by decide

/-- C5: a call made less than `insights_cooldown` seconds after the cooldown
clock returns an empty list with the state (hence the clock) untouched and no
rule evaluated; otherwise the clock is set to `now` even if no insight fires,
and with cpu=85, ram=90 and at most 200 processes exactly the critical CPU
insight, the critical RAM insight and the saturation warning are returned. -/
theorem generate_insights_cooldown_spec
    (now cpu ram : ℚ) (total : Nat) (s : AIState) :
    (now - s.last_insights_time < insights_cooldown →
      generate_insights now cpu ram total s = ([], s))
    ∧ (¬ now - s.last_insights_time < insights_cooldown →
        (generate_insights now cpu ram total s).2 = { s with last_insights_time := now }
        ∧ (cpu = 85 → ram = 90 → total ≤ 200 →
            (generate_insights now cpu ram total s).1 =
              [⟨"CPU crítica", "critical", "🚨"⟩, ⟨"RAM crítica", "critical", "🚨"⟩,
               ⟨"⚠️ Predicción: Saturación inminente", "warning", "🔮"⟩])) := by
  constructor
  · intro h
    unfold generate_insights
    simp [h]
  · intro h
    constructor
    · unfold generate_insights
      simp [h]
    · intro hc hr ht
      subst hc
      subst hr
      have htot : ¬ (200 < total) := by omega
      unfold generate_insights predict_resource_trend
      rw [if_neg h]
      norm_num [htot]

/-- Witness for C5: at time 100 from the fresh state (clock 0), cpu=85,
ram=90 and 150 processes yield exactly the three insights. -/
theorem generate_insights_cooldown_spec_witness :
    (generate_insights 100 85 90 150 initialAIState).1 =
      [⟨"CPU crítica", "critical", "🚨"⟩, ⟨"RAM crítica", "critical", "🚨"⟩,
       ⟨"⚠️ Predicción: Saturación inminente", "warning", "🔮"⟩] :=
  ((generate_insights_cooldown_spec 100 85 90 150 initialAIState).2
      (of_decide_eq_false (by with_unfolding_all rfl))).2 rfl rfl (by decide)

/-- C4: `detect_memory_leak` reports a leak iff there are at least 5 memory
samples, the last 5 contain at least 4 adjacent increases, and
`(last - first) / 5` exceeds `memory_leak_slope`; the memory-leak anomalies
produced by the per-process rules are exactly the one "high"-severity entry
under that condition; end to end, last-5 samples 100,110,120,130,140 are not
flagged while 100,115,130,145,160 yield exactly one memory-leak anomaly of
severity "high". -/
theorem memory_leak_detection_spec :
    (∀ mem : List ℚ, detect_memory_leak mem = true ↔
        (5 ≤ mem.length ∧ 4 ≤ countIncreases (takeLast 5 mem) ∧
          memory_leak_slope <
            ((takeLast 5 mem).getLastD 0 - (takeLast 5 mem).headD 0) / 5))
    ∧ (∀ (bl : Baseline) (ph : ProcHistory) (p : ProcSample),
        (checkProcess bl ph p).filter (fun a => decide (a.anomaly_type = "memory_leak")) =
          if 5 ≤ ph.memory.length ∧ detect_memory_leak ph.memory = true then
            [⟨p.name, p.pid, "memory_leak", "high", p.memory, bl.memory, "⚠️"⟩]
          else [])
    ∧ (detect_anomalies [leakProcFlat] leakStateFlat).1 = []
    ∧ (detect_anomalies [leakProcSteep] leakStateSteep).1 =
        [⟨"app", 7, "memory_leak", "high", 160, 130, "⚠️"⟩] := by
  refine ⟨?_, ?_, ?_, ?_⟩
  · intro mem
    unfold detect_memory_leak
    by_cases h5 : mem.length < 5
    · simp [h5]
    · have hlen : (takeLast 5 mem).length = 5 := by
        unfold takeLast
        rw [List.length_drop]
        omega
      have h5' : 5 ≤ mem.length := by omega
      rw [if_neg h5]
      by_cases hinc : 4 ≤ countIncreases (takeLast 5 mem)
      · simp only [hlen, Nat.cast_ofNat, hinc, if_true, decide_eq_true_iff]
        constructor
        · intro h
          exact ⟨h5', trivial, h⟩
        · intro h
          exact h.2.2
      · simp [hinc]
  · intro bl ph p
    unfold checkProcess
    rw [List.filter_append, List.filter_append, List.filter_append]
    split_ifs with h1 h2 h3 h4 h5 <;>
      simp [List.filter] <;>
      (intros a ha1 ha2 ha3; subst ha3; simp)
  · with_unfolding_all rfl
  · with_unfolding_all rfl

/-! ## Helper lemmas about the dict model -/

theorem alookup_aset {β : Type} (l : List (String × β)) (n m : String) (v : β) :
    alookup (aset l n v) m = if n = m then some v else alookup l m := by
  induction l with
  | nil => by_cases h : n = m <;> simp [aset, alookup, h]
  | cons e t ih =>
    by_cases he : e.1 = n
    · by_cases hm : n = m
      · simp [aset, alookup, he, hm]
      · have hem : ¬ e.1 = m := by
          rw [he]
          exact hm
        simp [aset, alookup, he, hm, hem]
    · by_cases hm : e.1 = m
      · have hnm : ¬ n = m := by
          intro h
          exact he (hm.trans h.symm)
        have hmn : ¬ m = n := fun h => he (hm.trans h)
        simp [aset, alookup, he, hm, hnm, hmn]
      · simp [aset, alookup, he, hm, ih]

theorem mem_aset {β : Type} (l : List (String × β)) (n : String) (v : β) (e : String × β)
    (h : e ∈ aset l n v) : e ∈ l ∨ e = (n, v) := by
  induction l with
  | nil =>
    simp [aset] at h
    right
    exact h
  | cons a t ih =>
    by_cases ha : a.1 = n
    · simp [aset, ha] at h
      rcases h with h | h
      · right
        exact h
      · left
        simp [h]
    · simp [aset, ha] at h
      rcases h with h | h
      · left
        simp [h]
      · rcases ih h with h2 | h2
        · left
          simp [h2]
        · right
          exact h2

theorem alookup_some_mem {β : Type} (l : List (String × β)) (n : String) (v : β)
    (h : alookup l n = some v) : (n, v) ∈ l := by
  induction l with
  | nil => simp [alookup] at h
  | cons e t ih =>
    by_cases he : e.1 = n
    · simp [alookup, he] at h
      have : (n, v) = e := by
        rw [← he, ← h]
      rw [this]
      exact List.mem_cons_self e t
    · simp [alookup, he] at h
      exact List.mem_cons_of_mem e (ih h)

theorem alookup_filter_none {β : Type} (l : List (String × β)) (n : String)
    (pred : String × β → Bool) (hall : ∀ e ∈ l, e.1 = n → pred e = false) :
    alookup (l.filter pred) n = none := by
  induction l with
  | nil => rfl
  | cons e t ih =>
    have iht := ih (fun x hx => hall x (List.mem_cons_of_mem e hx))
    by_cases hp : pred e = true
    · have hen : ¬ e.1 = n := by
        intro h
        rw [hall e (List.mem_cons_self e t) h] at hp
        exact Bool.false_ne_true hp
      simp [List.filter, hp, alookup, hen, iht]
    · simp [List.filter, hp, iht]

theorem alookup_filter_isSome {β : Type} (l : List (String × β)) (n : String)
    (pred : String × β → Bool) (hkeep : ∀ e ∈ l, e.1 = n → pred e = true)
    (hs : (alookup l n).isSome = true) : (alookup (l.filter pred) n).isSome = true := by
  induction l with
  | nil => simp [alookup] at hs
  | cons e t ih =>
    have iht := ih (fun x hx => hkeep x (List.mem_cons_of_mem e hx))
    by_cases he : e.1 = n
    · have hp : pred e = true := hkeep e (List.mem_cons_self e t) he
      simp [List.filter, hp, alookup, he]
    · simp [alookup, he] at hs
      by_cases hp : pred e = true
      · simp [List.filter, hp, alookup, he]
        exact iht hs
      · simp [List.filter, hp]
        exact iht hs

theorem ingestBatch_cons (now : ℚ) (p : ProcSample) (procs : List ProcSample)
    (h : List (String × ProcHistory)) :
    ingestBatch now (p :: procs) h =
      ingestBatch now procs
        (aset h p.name (histPush now p.cpu p.memory ((alookup h p.name).getD emptyHist))) := rfl

theorem alookup_ingest_not_in_batch (now : ℚ) (procs : List ProcSample)
    (h : List (String × ProcHistory)) (n : String)
    (hn : n ∉ procs.map ProcSample.name) :
    alookup (ingestBatch now procs h) n = alookup h n := by
  induction procs generalizing h with
  | nil => rfl
  | cons p t ih =>
    simp only [List.map_cons, List.mem_cons] at hn
    push_neg at hn
    rw [ingestBatch_cons, ih _ hn.2, alookup_aset]
    exact if_neg (fun hh => hn.1 hh.symm)

theorem alookup_ingest_isSome (now : ℚ) (procs : List ProcSample)
    (h : List (String × ProcHistory)) (n : String)
    (hs : (alookup h n).isSome = true) :
    (alookup (ingestBatch now procs h) n).isSome = true := by
  induction procs generalizing h with
  | nil => exact hs
  | cons p t ih =>
    rw [ingestBatch_cons]
    apply ih
    rw [alookup_aset]
    by_cases hp : p.name = n
    · simp [hp]
    · simp [hp]
      exact hs

theorem alookup_ingest_mem_batch (now : ℚ) (procs : List ProcSample)
    (h : List (String × ProcHistory)) (p : ProcSample) :
    p ∈ procs → (alookup (ingestBatch now procs h) p.name).isSome = true := by
  induction procs generalizing h with
  | nil =>
    intro hp
    simp at hp
  | cons q t ih =>
    intro hp
    rw [ingestBatch_cons]
    rcases List.mem_cons.mp hp with h1 | h1
    · subst h1
      apply alookup_ingest_isSome
      rw [alookup_aset]
      simp
    · exact ih _ h1

theorem update_process_data_history (now : ℚ) (procs : List ProcSample) (s : AIState) :
    (update_process_data now procs s).process_history =
      (ingestBatch now procs s.process_history).filter
        (fun e => !((((ingestBatch now procs s.process_history).filter
            (staleEntry now (procs.map ProcSample.name))).map Prod.fst).contains e.1)) := rfl

theorem update_process_data_baselines (now : ℚ) (procs : List ProcSample) (s : AIState) :
    (update_process_data now procs s).baselines =
      s.baselines.filter
        (fun e => !((((ingestBatch now procs s.process_history).filter
            (staleEntry now (procs.map ProcSample.name))).map Prod.fst).contains e.1)) := rfl

/-- C2: after `update_process_data(batch)`, a name tracked in history but
absent from the batch's name set whose last recorded timestamp is more than
120 seconds old is removed from both the history dict and the baselines dict,
while a name present in the batch is always still tracked afterwards, no
matter how old its earlier samples are. -/
theorem update_purges_stale_processes :
    (∀ (now : ℚ) (procs : List ProcSample) (s : AIState) (n : String) (ph : ProcHistory),
        n ∉ procs.map ProcSample.name →
        alookup s.process_history n = some ph →
        ph.timestamps ≠ [] →
        (120 : ℚ) < now - ph.timestamps.getLastD 0 →
        alookup (update_process_data now procs s).process_history n = none
        ∧ alookup (update_process_data now procs s).baselines n = none)
    ∧ (∀ (now : ℚ) (procs : List ProcSample) (s : AIState) (p : ProcSample),
        p ∈ procs →
        (alookup (update_process_data now procs s).process_history p.name).isSome = true) := by
  constructor
  · intro now procs s n ph hn hlook hts hold
    have hlook' : alookup (ingestBatch now procs s.process_history) n = some ph := by
      rw [alookup_ingest_not_in_batch now procs s.process_history n hn]
      exact hlook
    have hstale : staleEntry now (procs.map ProcSample.name) (n, ph) = true := by
      rw [List.getLastD_eq_getLast?] at hold
      unfold staleEntry
      simp [hn, hts, hold]
    have hrem : n ∈ ((ingestBatch now procs s.process_history).filter
        (staleEntry now (procs.map ProcSample.name))).map Prod.fst :=
      List.mem_map.mpr
        ⟨(n, ph), List.mem_filter.mpr ⟨alookup_some_mem _ _ _ hlook', hstale⟩, rfl⟩
    constructor
    · rw [update_process_data_history]
      apply alookup_filter_none
      intro e _ hen
      simp [hen, hrem]
    · rw [update_process_data_baselines]
      apply alookup_filter_none
      intro e _ hen
      simp [hen, hrem]
  · intro now procs s p hp
    have hname : p.name ∈ procs.map ProcSample.name := List.mem_map.mpr ⟨p, hp, rfl⟩
    rw [update_process_data_history]
    apply alookup_filter_isSome
    · intro e _ hen
      have hnotrem : p.name ∉ ((ingestBatch now procs s.process_history).filter
          (staleEntry now (procs.map ProcSample.name))).map Prod.fst := by
        intro hc
        rcases List.mem_map.mp hc with ⟨x, hx, hxn⟩
        have hxs := (List.mem_filter.mp hx).2
        unfold staleEntry at hxs
        rw [hxn] at hxs
        simp [hname] at hxs
      simp [hen, hnotrem]
    · exact alookup_ingest_mem_batch now procs s.process_history p hp

/-- Witness for C2: with a batch containing only "fresh" at time 200, the
process "old" (last seen at time 0) is purged from history and baselines. -/
theorem update_purges_stale_processes_witness :
    alookup (update_process_data 200 [freshSample] staleState).process_history "old" = none
    ∧ alookup (update_process_data 200 [freshSample] staleState).baselines "old" = none :=
  update_purges_stale_processes.1 200 [freshSample] staleState "old" ⟨[1], [1], [0]⟩
    (by decide) (by with_unfolding_all rfl) (by simp)
    (of_decide_eq_true (by with_unfolding_all rfl))

theorem histPush_sync (now c m : ℚ) (ph : ProcHistory)
    (hs : ph.cpu.length = ph.memory.length ∧ ph.memory.length = ph.timestamps.length) :
    (histPush now c m ph).cpu.length = (histPush now c m ph).memory.length
    ∧ (histPush now c m ph).memory.length = (histPush now c m ph).timestamps.length := by
  unfold histPush
  simp only [List.length_append, List.length_singleton]
  by_cases h : history_size < ph.cpu.length + 1
  · simp [h, takeLast, List.length_append]
    omega
  · simp [h, List.length_append]
    omega

theorem histPush_bound (now c m : ℚ) (ph : ProcHistory)
    (hb : ph.cpu.length ≤ history_size ∧ ph.memory.length ≤ history_size
      ∧ ph.timestamps.length ≤ history_size)
    (hs : ph.cpu.length = ph.memory.length ∧ ph.memory.length = ph.timestamps.length) :
    (histPush now c m ph).cpu.length ≤ history_size
    ∧ (histPush now c m ph).memory.length ≤ history_size
    ∧ (histPush now c m ph).timestamps.length ≤ history_size := by
  unfold histPush
  simp only [List.length_append, List.length_singleton]
  by_cases h : history_size < ph.cpu.length + 1
  · simp [h, takeLast, List.length_append]
    omega
  · simp [h, List.length_append]
    omega

theorem ingest_entry_pres (P : ProcHistory → Prop)
    (hPush : ∀ (now c m : ℚ) (ph : ProcHistory), P ph → P (histPush now c m ph))
    (hEmpty : P emptyHist)
    (now : ℚ) (procs : List ProcSample) (h : List (String × ProcHistory))
    (hh : ∀ e ∈ h, P e.2) :
    ∀ e ∈ ingestBatch now procs h, P e.2 := by
  induction procs generalizing h with
  | nil => exact hh
  | cons p t ih =>
    rw [ingestBatch_cons]
    apply ih
    intro e he
    rcases mem_aset _ _ _ _ he with h1 | h1
    · exact hh e h1
    · rw [h1]
      apply hPush
      cases hl : alookup h p.name with
      | none => simpa [hl] using hEmpty
      | some ph => simpa [hl] using hh _ (alookup_some_mem _ _ _ hl)

theorem update_entry_pres (P : ProcHistory → Prop)
    (hPush : ∀ (now c m : ℚ) (ph : ProcHistory), P ph → P (histPush now c m ph))
    (hEmpty : P emptyHist)
    (now : ℚ) (procs : List ProcSample) (s : AIState)
    (hh : ∀ e ∈ s.process_history, P e.2) :
    ∀ e ∈ (update_process_data now procs s).process_history, P e.2 := by
  rw [update_process_data_history]
  intro e he
  exact ingest_entry_pres P hPush hEmpty now procs s.process_history hh e
    (List.mem_filter.mp he).1

theorem runUpdates_entry_pres (P : ProcHistory → Prop)
    (hPush : ∀ (now c m : ℚ) (ph : ProcHistory), P ph → P (histPush now c m ph))
    (hEmpty : P emptyHist)
    (updates : List (ℚ × List ProcSample)) (s : AIState)
    (hh : ∀ e ∈ s.process_history, P e.2) :
    ∀ e ∈ (runUpdates updates s).process_history, P e.2 := by
  induction updates generalizing s with
  | nil => exact hh
  | cons u t ih =>
    exact ih (update_process_data u.1 u.2 s) (update_entry_pres P hPush hEmpty u.1 u.2 s hh)

/-- C3: the configured capacity is 20; eviction keeps a suffix of the
appended lists (dropping oldest samples first); and after any sequence of
`update_process_data` calls from the initial state, every tracked process's
cpu, memory and timestamp lists have length at most `history_size`. -/
theorem history_length_bounded :
    history_size = 20
    ∧ (∀ (now c m : ℚ) (ph : ProcHistory),
        (histPush now c m ph).cpu <:+ ph.cpu ++ [c]
        ∧ (histPush now c m ph).memory <:+ ph.memory ++ [m]
        ∧ (histPush now c m ph).timestamps <:+ ph.timestamps ++ [now])
    ∧ (∀ updates : List (ℚ × List ProcSample),
        historyBounded (runUpdates updates initialAIState).process_history) := by
  refine ⟨rfl, ?_, ?_⟩
  · intro now c m ph
    unfold histPush
    simp only [List.length_append, List.length_singleton]
    by_cases h : history_size < ph.cpu.length + 1
    · simp [h, takeLast]
      exact ⟨List.drop_suffix _ _, List.drop_suffix _ _, List.drop_suffix _ _⟩
    · simp [h]
  · intro updates
    intro e he
    have := runUpdates_entry_pres
      (fun ph => (ph.cpu.length ≤ history_size ∧ ph.memory.length ≤ history_size
          ∧ ph.timestamps.length ≤ history_size)
        ∧ (ph.cpu.length = ph.memory.length ∧ ph.memory.length = ph.timestamps.length))
      (fun now c m ph hp => ⟨histPush_bound now c m ph hp.1 hp.2, histPush_sync now c m ph hp.2⟩)
      (by simp [emptyHist])
      updates initialAIState
      (by
        intro e he
        simp [initialAIState] at he)
      e he
    exact this.1

/-- C9: after any sequence of `update_process_data` calls from the initial
state the three parallel history lists of every tracked process have equal
lengths, and a single call preserves that parallelism from any state
satisfying it (each append touches all three lists and each truncation
truncates all three identically). -/
theorem history_lists_parallel :
    (∀ updates : List (ℚ × List ProcSample),
        historySynced (runUpdates updates initialAIState).process_history)
    ∧ (∀ (now : ℚ) (procs : List ProcSample) (s : AIState),
        historySynced s.process_history →
        historySynced (update_process_data now procs s).process_history) := by
  constructor
  · intro updates
    exact runUpdates_entry_pres
      (fun ph => ph.cpu.length = ph.memory.length ∧ ph.memory.length = ph.timestamps.length)
      (fun now c m ph hp => histPush_sync now c m ph hp)
      (by simp [emptyHist])
      updates initialAIState
      (by
        intro e he
        simp [initialAIState] at he)
  · intro now procs s hs
    exact update_entry_pres
      (fun ph => ph.cpu.length = ph.memory.length ∧ ph.memory.length = ph.timestamps.length)
      (fun now c m ph hp => histPush_sync now c m ph hp)
      (by simp [emptyHist])
      now procs s hs

/-- Witness for C9: one update of the fresh state keeps the three history
lists of every tracked process at equal lengths. -/
theorem history_lists_parallel_witness :
    historySynced (update_process_data 0 [freshSample] initialAIState).process_history :=
  history_lists_parallel.2 0 [freshSample] initialAIState
    (by
      intro e he
      simp [initialAIState] at he)

theorem calculate_baselines_cons (e : String × ProcHistory)
    (t : List (String × ProcHistory)) (b : List (String × Baseline)) :
    calculate_baselines (e :: t) b =
      calculate_baselines t
        (if e.2.cpu.length < 3 then b
         else aset b e.1
           ⟨listMean e.2.cpu, listMean e.2.memory,
            listVarSample e.2.cpu, listVarSample e.2.memory⟩) := by
  unfold calculate_baselines
  rw [List.foldl_cons]

theorem alookup_calcB_isSome (h : List (String × ProcHistory))
    (b : List (String × Baseline)) (n : String)
    (hs : (alookup (calculate_baselines h b) n).isSome = true) :
    (alookup b n).isSome = true ∨ (alookup h n).isSome = true := by
  induction h generalizing b with
  | nil => exact Or.inl hs
  | cons e t ih =>
    rw [calculate_baselines_cons] at hs
    rcases ih _ hs with h1 | h1
    · by_cases hc : e.2.cpu.length < 3
      · rw [if_pos hc] at h1
        exact Or.inl h1
      · rw [if_neg hc, alookup_aset] at h1
        by_cases he : e.1 = n
        · right
          simp [alookup, he]
        · rw [if_neg he] at h1
          exact Or.inl h1
    · right
      by_cases he : e.1 = n <;> simp [alookup, he, h1]

theorem ensureHist_of_isSome (h : List (String × ProcHistory)) (n : String)
    (hs : (alookup h n).isSome = true) : (ensureHist h n).1 = h := by
  cases hl : alookup h n with
  | none =>
    rw [hl] at hs
    simp at hs
  | some ph => simp [ensureHist, hl]

theorem detectStep_fold_fst (b : List (String × Baseline))
    (h0 : List (String × ProcHistory))
    (hb : ∀ n, (alookup b n).isSome = true → (alookup h0 n).isSome = true)
    (ps : List ProcSample) :
    ∀ anoms : List ProcessAnomaly, (ps.foldl (detectStep b) (h0, anoms)).1 = h0 := by
  induction ps with
  | nil =>
    intro anoms
    rfl
  | cons p t ih =>
    intro anoms
    rw [List.foldl_cons]
    cases hl : alookup b p.name with
    | none =>
      simp only [detectStep, hl]
      exact ih anoms
    | some bl =>
      have h1 : (ensureHist h0 p.name).1 = h0 :=
        ensureHist_of_isSome h0 p.name (hb p.name (by simp [hl]))
      simp only [detectStep, hl, h1]
      exact ih _

/-- C10: from any state whose baselines dict only holds names that are also
tracked in the history dict (true of every reachable state), `detect_anomalies`
leaves `process_history` unchanged for every input batch: despite indexing the
auto-creating default dict with batch names, it creates no new history entry
and rewrites no existing one — only baselines and the current-anomalies list
are written. -/
theorem detect_anomalies_history_frame
    (procs : List ProcSample) (s : AIState)
    (hcov : baselinesCovered s) :
    (detect_anomalies procs s).2.process_history = s.process_history := by
  have hkeys : ∀ n,
      (alookup (calculate_baselines s.process_history s.baselines) n).isSome = true →
      (alookup s.process_history n).isSome = true := by
    intro n hs
    rcases alookup_calcB_isSome s.process_history s.baselines n hs with h1 | h1
    · cases hl : alookup s.baselines n with
      | none =>
        rw [hl] at h1
        simp at h1
      | some v => exact hcov (n, v) (alookup_some_mem _ _ _ hl)
    · exact h1
  have hmain : (detect_anomalies procs s).2.process_history =
      (procs.foldl (detectStep (calculate_baselines s.process_history s.baselines))
        (s.process_history, [])).1 := rfl
  rw [hmain]
  exact detectStep_fold_fst _ _ hkeys procs []

/-- Witness for C10: a batch naming both a baselined process and an unknown
one leaves the covered state's history dict untouched. -/
theorem detect_anomalies_history_frame_witness :
    (detect_anomalies [⟨"app", 1, 1, 1⟩, ⟨"ghost", 2, 1, 1⟩] coveredState).2.process_history
      = coveredState.process_history :=
  detect_anomalies_history_frame [⟨"app", 1, 1, 1⟩, ⟨"ghost", 2, 1, 1⟩] coveredState
    (by
      intro e he
      simp [coveredState] at he
      subst he
      simp [coveredState, alookup])

theorem matchesFilter_empty (p : ProcessInfo) : matchesFilter "" p = true := by
  simp [matchesFilter]

theorem sortLe_trans (sortBy : String) (p q r : ProcessInfo)
    (h1 : sortLe sortBy p q = true) (h2 : sortLe sortBy q r = true) :
    sortLe sortBy p r = true := by
  unfold sortLe at h1 h2 ⊢
  split_ifs at h1 h2 ⊢ <;> simp only [decide_eq_true_eq] at h1 h2 ⊢ <;>
    exact le_trans h1 h2

theorem sortLe_total (sortBy : String) (p q : ProcessInfo) :
    sortLe sortBy p q = true ∨ sortLe sortBy q p = true := by
  unfold sortLe
  split_ifs <;> simp only [decide_eq_true_eq] <;> exact le_total _ _

theorem effectiveLe_trans (sortBy : String) (rev : Bool) (p q r : ProcessInfo)
    (h1 : effectiveLe sortBy rev p q = true) (h2 : effectiveLe sortBy rev q r = true) :
    effectiveLe sortBy rev p r = true := by
  unfold effectiveLe at h1 h2 ⊢
  cases rev with
  | false =>
    simp only [if_neg Bool.false_ne_true] at h1 h2 ⊢
    exact sortLe_trans sortBy p q r h1 h2
  | true =>
    simp only [if_pos rfl] at h1 h2 ⊢
    exact sortLe_trans sortBy r q p h2 h1

theorem effectiveLe_total (sortBy : String) (rev : Bool) (p q : ProcessInfo) :
    effectiveLe sortBy rev p q = true ∨ effectiveLe sortBy rev q p = true := by
  unfold effectiveLe
  cases rev with
  | false =>
    simp only [if_neg Bool.false_ne_true]
    exact sortLe_total sortBy p q
  | true =>
    simp only [if_pos rfl]
    exact sortLe_total sortBy q p

theorem sortLe_fallback (sortBy : String)
    (hne : sortBy ≠ "cpu" ∧ sortBy ≠ "memory" ∧ sortBy ≠ "name" ∧ sortBy ≠ "pid") :
    sortLe sortBy = sortLe "cpu" := by
  funext p q
  unfold sortLe
  simp [hne.1, hne.2.1, hne.2.2.1, hne.2.2.2]

theorem stableSortBy_sorted {α : Type} (le : α → α → Bool)
    (htr : ∀ p q r, le p q = true → le q r = true → le p r = true)
    (hto : ∀ p q, le p q = true ∨ le q p = true) (l : List α) :
    List.Pairwise (fun p q => le p q = true) (stableSortBy le l) := by
  have hT : IsTrans α (fun p q => le p q = true) := ⟨htr⟩
  have hO : IsTotal α (fun p q => le p q = true) := ⟨hto⟩
  exact List.sorted_insertionSort _ l

/-- C6: `get_processes` returns exactly a `limit`-truncation of a sorting
(by the selected key relation) of the cached processes matching the
case-insensitive substring filter; an unrecognized `sortBy` behaves exactly
like "cpu"; a filter matching nothing yields the empty list; and sorting by
name with `reverse=false` is ascending in the case-insensitive name key. -/
theorem get_processes_spec (cache : List ProcessInfo) (sortBy : String) (rev : Bool)
    (limit : Nat) (filterText : String) :
    (∃ l : List ProcessInfo,
        l.Perm (cache.filter (matchesFilter filterText))
        ∧ List.Pairwise (fun p q => effectiveLe sortBy rev p q = true) l
        ∧ get_processes cache sortBy rev limit filterText = l.take limit)
    ∧ (sortBy ∉ (["cpu", "memory", "name", "pid"] : List String) →
        get_processes cache sortBy rev limit filterText =
          get_processes cache "cpu" rev limit filterText)
    ∧ ((∀ p ∈ cache, matchesFilter filterText p = false) →
        get_processes cache sortBy rev limit filterText = [])
    ∧ (sortBy = "name" → rev = false →
        List.Pairwise (fun p q => nameKey p ≤ nameKey q)
          (get_processes cache sortBy rev limit filterText)) := by
  have hfil : (if filterText = "" then cache else cache.filter (matchesFilter filterText))
      = cache.filter (matchesFilter filterText) := by
    by_cases hf : filterText = ""
    · rw [if_pos hf]
      symm
      apply List.filter_eq_self.mpr
      intro p _
      rw [hf]
      exact matchesFilter_empty p
    · rw [if_neg hf]
  have hgp : get_processes cache sortBy rev limit filterText =
      (stableSortBy (effectiveLe sortBy rev)
        (cache.filter (matchesFilter filterText))).take limit := by
    unfold get_processes
    rw [hfil]
  have hsorted : List.Pairwise (fun p q => effectiveLe sortBy rev p q = true)
      (stableSortBy (effectiveLe sortBy rev) (cache.filter (matchesFilter filterText))) :=
    stableSortBy_sorted _ (effectiveLe_trans sortBy rev) (effectiveLe_total sortBy rev) _
  refine ⟨?_, ?_, ?_, ?_⟩
  · exact ⟨stableSortBy (effectiveLe sortBy rev) (cache.filter (matchesFilter filterText)),
      List.perm_insertionSort _ _, hsorted, hgp⟩
  · intro hnot
    simp only [List.mem_cons, List.mem_singleton, not_or] at hnot
    have hle : effectiveLe sortBy rev = effectiveLe "cpu" rev := by
      funext p q
      unfold effectiveLe
      rw [sortLe_fallback sortBy ⟨hnot.1, hnot.2.1, hnot.2.2.1, by simpa using hnot.2.2.2⟩]
    unfold get_processes
    rw [hle]
  · intro hall
    have hnil : cache.filter (matchesFilter filterText) = [] := by
      apply List.filter_eq_nil_iff.mpr
      intro p hp
      simp [hall p hp]
    rw [hgp, hnil]
    simp [stableSortBy]
  · intro hname hrev
    subst hname
    subst hrev
    rw [hgp]
    have htake := List.Pairwise.sublist (List.take_sublist limit _) hsorted
    refine htake.imp ?_
    intro p q hpq
    unfold effectiveLe sortLe at hpq
    simp at hpq
    exact hpq

/-- Witness for C6: filtering the example cache with text matching no process
name yields the empty list. -/
theorem get_processes_spec_witness :
    get_processes cacheEx "cpu" true 10 "zz" = [] :=
  (get_processes_spec cacheEx "cpu" true 10 "zz").2.2.1 (by decide)
